import Mathlib

/-!
# Shallow embedding of `src/ros2-realsense-db3-to-video.py`

The script converts a ROS 2 bag recording into two video files: it extracts
the color image channel (swapping the RGB byte order to BGR), extracts the
depth image channel (per-frame min–max normalization to 8 bit followed by a
fixed color lookup), and pipes the raw frame bytes of each sequence into an
external `ffmpeg` process.

Bytes are modelled as `Nat`s, buffers as `List Nat`.  The external library
calls (`numpy` reshape, `cv2.cvtColor`, `cv2.normalize`, `cv2.applyColorMap`)
are embedded by their documented elementwise semantics; the fixed TURBO color
lookup table lives inside OpenCV, so depth processing is parameterized over
an arbitrary per-byte lookup `lut : Nat → List Nat`.
-/

set_option autoImplicit false

namespace Db3ToVideo

/-- Configuration constant `ENABLE_COMPRESSION` from the script. -/
def ENABLE_COMPRESSION : Bool := false

/-- Configuration constant `BITRATE` from the script. -/
def BITRATE : String := "24000k"

/-- A decoded `sensor_msgs/Image` message as the script uses it: declared
`msg.height` and `msg.width` plus the raw pixel byte buffer `msg.data`. -/
structure ImageMsg where
  height : Nat
  width : Nat
  data : List Nat
deriving DecidableEq

/-- A displayable frame: dimensions plus the flat row-major byte buffer
(3 bytes per pixel after processing, BGR order). -/
structure Frame where
  height : Nat
  width : Nat
  data : List Nat
deriving DecidableEq

/-- Byte of a frame at `(row, col, channel)`: the flat buffer is row-major
with 3 bytes per pixel, exactly as `ffmpeg` consumes `frame.tobytes()`. -/
def Frame.byteAt (f : Frame) (r c ch : Nat) : Nat :=
  f.data.getD ((r * f.width + c) * 3 + ch) 0

/-- Byte of a color message's source buffer at `(row, col, channel)` under the
`reshape(msg.height, msg.width, 3)` view. -/
def ImageMsg.byteAt (msg : ImageMsg) (r c ch : Nat) : Nat :=
  msg.data.getD ((r * msg.width + c) * 3 + ch) 0

/-- Failures of the per-message extraction step.  `malformedFrame h w len`
models the `ValueError` numpy raises when the declared `height`/`width` do not
match the buffer length (`reshape` failure, or `frombuffer` on a buffer that
is not a whole number of 16-bit elements). -/
inductive ExtractError where
  | malformedFrame (height width bufLen : Nat)
deriving DecidableEq

/-- `cv2.cvtColor(frame, cv2.COLOR_RGB2BGR)` on a row-major `h×w×3` byte
array, flattened: the output byte at flat index `i` is the input byte of the
same pixel with the channel index reversed (`ch ↦ 2 - ch`). -/
def rgb2bgr (data : List Nat) : List Nat :=
  (List.range data.length).map (fun i => data.getD (3 * (i / 3) + (2 - i % 3)) 0)

/-- Body of the `extract_color_frames` loop for one message:
`np.frombuffer(msg.data, dtype=np.uint8).reshape(msg.height, msg.width, 3)`
(which succeeds exactly when the buffer holds `height * width * 3` bytes)
followed by `cv2.cvtColor(frame, cv2.COLOR_RGB2BGR)`. -/
def processColorMsg (msg : ImageMsg) : Except ExtractError Frame :=
  if msg.data.length = msg.height * msg.width * 3 then
    Except.ok { height := msg.height, width := msg.width, data := rgb2bgr msg.data }
  else
    Except.error (ExtractError.malformedFrame msg.height msg.width msg.data.length)

/-- The `extract_color_frames` loop: appends each converted frame and records
`frame_width`/`frame_height` from the first frame only. -/
def colorFold (msgs : List ImageMsg) (acc : List Frame) (w h : Option Nat) :
    Except ExtractError (List Frame × Option Nat × Option Nat) :=
  match msgs with
  | [] => Except.ok (acc, w, h)
  | m :: rest =>
    match processColorMsg m with
    | Except.error e => Except.error e
    | Except.ok f =>
      match w with
      | none => colorFold rest (acc ++ [f]) (some f.width) (some f.height)
      | some _ => colorFold rest (acc ++ [f]) w h

/-- Result of `extract_color_frames`: the frame list, the fixed `fps = 30`,
and the resolution recorded from the first frame (or `none`). -/
structure ColorExtract where
  frames : List Frame
  fps : Nat
  frameWidth : Option Nat
  frameHeight : Option Nat
deriving DecidableEq

/-- `extract_color_frames` over the color channel's decoded messages. -/
def extract_color_frames (msgs : List ImageMsg) : Except ExtractError ColorExtract :=
  match colorFold msgs [] none none with
  | Except.error e => Except.error e
  | Except.ok (fs, w, h) => Except.ok { frames := fs, fps := 30, frameWidth := w, frameHeight := h }

example : extract_color_frames [⟨1, 1, [10, 20, 30]⟩]
    = Except.ok ⟨[⟨1, 1, [30, 20, 10]⟩], 30, some 1, some 1⟩ := rfl

example : extract_color_frames [⟨1, 1, [10, 20]⟩]
    = Except.error (ExtractError.malformedFrame 1 1 2) := rfl

/-- `np.frombuffer(data, dtype=np.uint16)` on a little-endian platform: pair
up consecutive bytes into 16-bit samples (`lo + 256 * hi`).  A trailing odd
byte cannot form an element (`frombuffer` rejects such buffers; the caller
checks the parity separately). -/
def depthSamplesOfBytes : List Nat → List Nat
  | b0 :: b1 :: rest => (b0 + 256 * b1) :: depthSamplesOfBytes rest
  | _ => []

/-- The 16-bit sample view of a depth message's buffer. -/
def depthSamples (msg : ImageMsg) : List Nat :=
  depthSamplesOfBytes msg.data

/-- Minimum of a list of samples, as `cv2.minMaxIdx` computes it (0 on the
empty list, never hit on a successfully reshaped frame with pixels). -/
def listMin : List Nat → Nat
  | [] => 0
  | [v] => v
  | v :: rest => min v (listMin rest)

/-- Maximum of a list of samples. -/
def listMax : List Nat → Nat
  | [] => 0
  | [v] => v
  | v :: rest => max v (listMax rest)

/-- Round the exact rational `q / d` to the nearest integer, ties to even —
the rounding `cvRound` applies inside `convertTo`'s `saturate_cast`. -/
def roundDiv (q d : Nat) : Nat :=
  if 2 * (q % d) < d then q / d
  else if d < 2 * (q % d) then q / d + 1
  else if q / d % 2 = 0 then q / d else q / d + 1

/-- `cv2.normalize(src, None, 0, 255, cv2.NORM_MINMAX, dtype=cv2.CV_8U)`:
linearly rescale the frame's own min–max sample range onto `0–255` and round
each value; a degenerate range (all samples equal) gets scale `0`, mapping
everything to `0`. -/
def normMinMax (s : List Nat) : List Nat :=
  let lo := listMin s
  let hi := listMax s
  if hi = lo then s.map (fun _ => 0)
  else s.map (fun v => roundDiv ((v - lo) * 255) (hi - lo))

/-- The `depth_normalized` intermediate of the script's loop body: the 8-bit
normalized frame of one message, before the color lookup is applied. -/
def depth_normalized (msg : ImageMsg) : List Nat :=
  normMinMax (depthSamples msg)

/-- Body of the `extract_depth_frames` loop for one message:
`np.frombuffer(msg.data, dtype=np.uint16)` (rejecting buffers of odd byte
length), `reshape(msg.height, msg.width)` (which succeeds exactly when there
are `height * width` samples), `cv2.normalize(..., NORM_MINMAX, CV_8U)`, then
`cv2.applyColorMap(..., COLORMAP_TURBO)` — the fixed OpenCV lookup table is
abstracted as `lut`, applied per normalized byte to give 3 output bytes. -/
def processDepthMsg (lut : Nat → List Nat) (msg : ImageMsg) : Except ExtractError Frame :=
  if msg.data.length % 2 ≠ 0 then
    Except.error (ExtractError.malformedFrame msg.height msg.width msg.data.length)
  else if (depthSamples msg).length = msg.height * msg.width then
    Except.ok { height := msg.height, width := msg.width,
                data := ((depth_normalized msg).map lut).flatten }
  else
    Except.error (ExtractError.malformedFrame msg.height msg.width msg.data.length)

/-- The `extract_depth_frames` loop: appends each colored frame in order. -/
def depthLoop (lut : Nat → List Nat) (msgs : List ImageMsg) (acc : List Frame) :
    Except ExtractError (List Frame) :=
  match msgs with
  | [] => Except.ok acc
  | m :: rest =>
    match processDepthMsg lut m with
    | Except.error e => Except.error e
    | Except.ok f => depthLoop lut rest (acc ++ [f])

/-- `extract_depth_frames` over the depth channel's decoded messages. -/
def extract_depth_frames (lut : Nat → List Nat) (msgs : List ImageMsg) :
    Except ExtractError (List Frame) :=
  depthLoop lut msgs []

example : extract_depth_frames (fun v => [v, v, v]) [⟨1, 2, [0, 0, 232, 3]⟩]
    = Except.ok [⟨1, 2, [0, 0, 0, 255, 255, 255]⟩] := rfl

example : extract_depth_frames (fun v => [v, v, v]) [⟨1, 2, [0, 0, 232]⟩]
    = Except.error (ExtractError.malformedFrame 1 2 3) := rfl

/-- Observable behavior of the external `ffmpeg` process for one invocation:
its exit code and whatever it wrote to standard error.  `create_video` is a
function of this behavior, since the script only reads these two values. -/
structure ProcessBehavior where
  returncode : Int
  stderrText : String
deriving DecidableEq

/-- The messages `create_video` prints: the empty-input short-circuit, the
failure report carrying the captured stderr text, and the success report
carrying the output path. -/
inductive VideoReport where
  | nothingToWrite (path : String)
  | errorCreating (stderrText : String)
  | savedTo (path : String)
deriving DecidableEq

/-- Trace of one `create_video` call: whether `subprocess.Popen` ran, the
argument list passed to it, the bytes written to its stdin pipe in order,
whether stdin was closed, and the printed report.  The external process is
the only thing that creates the output file, so `processLaunched = false`
implies no file is created. -/
structure VideoResult where
  processLaunched : Bool
  cmd : List String
  bytesStreamed : List Nat
  stdinClosed : Bool
  report : VideoReport
deriving DecidableEq

/-- The `cmd` list built by `create_video`: the fixed `ffmpeg` raw-video
arguments, the codec/crf pair selected by `enable_compression`, the optional
`cmd.extend(['-b:v', BITRATE])`, then the output path. -/
def ffmpegCmd (fps width height : Nat) (enable_compression : Bool) (output_path : String) :
    List String :=
  let codec := if enable_compression then "libx264" else "mpeg4"
  let crf := if enable_compression then "23" else "0"
  let base := ["ffmpeg", "-y",
    "-f", "rawvideo",
    "-pixel_format", "bgr24",
    "-video_size", toString width ++ "x" ++ toString height,
    "-framerate", toString fps,
    "-i", "pipe:",
    "-c:v", codec,
    "-crf", crf,
    "-preset", "medium"]
  (if enable_compression then base ++ ["-b:v", BITRATE] else base) ++ [output_path]

/-- `create_video(frames, output_path, fps, width, height, enable_compression)`.
An empty frame list short-circuits: no process, no writes, report
"No frames to write".  Otherwise the external process is launched with
`ffmpegCmd`, every frame's `tobytes()` is written to its stdin in sequence
order, stdin is closed, and the report depends on the process exit code. -/
def create_video (proc : ProcessBehavior) (frames : List Frame) (output_path : String)
    (fps width height : Nat) (enable_compression : Bool) : VideoResult :=
  if frames.isEmpty then
    { processLaunched := false, cmd := [], bytesStreamed := [], stdinClosed := false,
      report := VideoReport.nothingToWrite output_path }
  else
    { processLaunched := true,
      cmd := ffmpegCmd fps width height enable_compression output_path,
      bytesStreamed := (frames.map (fun f => f.data)).flatten,
      stdinClosed := true,
      report := if proc.returncode ≠ 0 then VideoReport.errorCreating proc.stderrText
                else VideoReport.savedTo output_path }

/-- A recording, as the script reads it: the decoded messages of the three
fixed topics, in stored order.  The IMU channel is reduced to the
`header.frame_id` strings the script prints. -/
structure Recording where
  colorMsgs : List ImageMsg
  depthMsgs : List ImageMsg
  imuFrameIds : List String
deriving DecidableEq

/-- `extract_imu_data`: prints each IMU message's `header.frame_id`;
modelled as the list of printed lines. -/
def extract_imu_data (rec : Recording) : List String :=
  rec.imuFrameIds

/-- How a run of `main` ended: an uncaught extraction exception, the
explicit "Could not determine frame size" abort, or normal completion. -/
inductive MainOutcome where
  | extractionFailure (e : ExtractError)
  | abortedNoFrameSize
  | completed
deriving DecidableEq

/-- Trace of one run of `main`: the IMU lines printed and the
`create_video` calls made, in order.  No call means no external process and
no output file. -/
structure MainTrace where
  imuLog : List String
  videoCalls : List VideoResult
  outcome : MainOutcome
deriving DecidableEq

/-- The two fixed output paths under `OUTPUT_DIR`. -/
def colorVideoPath : String := "output/color_video.mp4"

/-- The depth output path. -/
def depthVideoPath : String := "output/depth_video.mp4"

/-- `main`: run the IMU reporter, the two extractors, then — unless the color
resolution is `None` — encode the color and depth sequences with the color
channel's fps/width/height.  `procColor`/`procDepth` are the behaviors of the
two potential external processes. -/
def main_run (lut : Nat → List Nat) (procColor procDepth : ProcessBehavior)
    (rec : Recording) (enable_compression : Bool) : MainTrace :=
  let imuLog := extract_imu_data rec
  match extract_color_frames rec.colorMsgs with
  | Except.error e => { imuLog, videoCalls := [], outcome := MainOutcome.extractionFailure e }
  | Except.ok ce =>
    match extract_depth_frames lut rec.depthMsgs with
    | Except.error e => { imuLog, videoCalls := [], outcome := MainOutcome.extractionFailure e }
    | Except.ok depth_frames =>
      match ce.frameWidth, ce.frameHeight with
      | some w, some h =>
        let colorCalls :=
          if ce.frames.isEmpty then []
          else [create_video procColor ce.frames colorVideoPath ce.fps w h enable_compression]
        let depthCalls :=
          if depth_frames.isEmpty then []
          else [create_video procDepth depth_frames depthVideoPath ce.fps w h enable_compression]
        { imuLog, videoCalls := colorCalls ++ depthCalls, outcome := MainOutcome.completed }
      | _, _ => { imuLog, videoCalls := [], outcome := MainOutcome.abortedNoFrameSize }

example :
    (main_run (fun v => [v, v, v]) ⟨0, ""⟩ ⟨0, ""⟩ ⟨[], [⟨1, 1, [7, 0]⟩], ["imu0"]⟩ false).outcome
      = MainOutcome.abortedNoFrameSize := rfl

/-! ## Helper lemmas -/

theorem getD_map_of_lt (g : Nat → Nat) (l : List Nat) (k : Nat) (hk : k < l.length) :
    (l.map g).getD k 0 = g (l.get ⟨k, hk⟩) := by
  rw [List.getD_eq_get?, List.get?_map, List.get?_eq_some.mpr ⟨hk, rfl⟩]
  rfl

theorem rgb2bgr_length (data : List Nat) : (rgb2bgr data).length = data.length := by
  simp [rgb2bgr]

theorem rgb2bgr_getD (data : List Nat) (i : Nat) (hi : i < data.length) :
    (rgb2bgr data).getD i 0 = data.getD (3 * (i / 3) + (2 - i % 3)) 0 := by
  unfold rgb2bgr
  rw [List.getD_eq_get?, List.get?_map, List.get?_range hi]
  rfl

theorem depthSamplesOfBytes_length :
    ∀ l : List Nat, (depthSamplesOfBytes l).length = l.length / 2
  | [] => by simp [depthSamplesOfBytes]
  | [_] => by simp [depthSamplesOfBytes]
  | _ :: _ :: rest => by
    have ih := depthSamplesOfBytes_length rest
    simp only [depthSamplesOfBytes, List.length_cons, ih]
    omega

theorem listMin_le_of_mem : ∀ (l : List Nat) (x : Nat), x ∈ l → listMin l ≤ x
  | [], x, hx => absurd hx (List.not_mem_nil x)
  | [v], x, hx => by
    rcases List.mem_singleton.mp hx with rfl
    exact Nat.le_refl _
  | v :: w :: rest, x, hx => by
    rcases List.mem_cons.mp hx with rfl | hx2
    · exact Nat.min_le_left _ _
    · exact Nat.le_trans (Nat.min_le_right _ _) (listMin_le_of_mem (w :: rest) x hx2)

theorem le_listMax_of_mem : ∀ (l : List Nat) (x : Nat), x ∈ l → x ≤ listMax l
  | [], x, hx => absurd hx (List.not_mem_nil x)
  | [v], x, hx => by
    rcases List.mem_singleton.mp hx with rfl
    exact Nat.le_refl _
  | v :: w :: rest, x, hx => by
    rcases List.mem_cons.mp hx with rfl | hx2
    · exact Nat.le_max_left _ _
    · exact Nat.le_trans (le_listMax_of_mem (w :: rest) x hx2) (Nat.le_max_right _ _)

theorem roundDiv_zero (d : Nat) : roundDiv 0 d = 0 := by
  unfold roundDiv
  simp only [Nat.zero_mod, Nat.zero_div, Nat.mul_zero]
  split_ifs <;> omega

theorem roundDiv_mul_self (d n : Nat) (hd : 0 < d) : roundDiv (d * n) d = n := by
  unfold roundDiv
  rw [Nat.mul_mod_right, Nat.mul_div_cancel_left n hd]
  simp [hd]

theorem normMinMax_length (s : List Nat) : (normMinMax s).length = s.length := by
  simp only [normMinMax]
  split_ifs <;> simp

theorem normMinMax_getD (s : List Nat) (k : Nat) (hk : k < s.length)
    (hne : listMax s ≠ listMin s) :
    (normMinMax s).getD k 0
      = roundDiv ((s.get ⟨k, hk⟩ - listMin s) * 255) (listMax s - listMin s) := by
  simp only [normMinMax]
  rw [if_neg hne]
  exact getD_map_of_lt _ s k hk

theorem flatten_map_data_length (frames : List Frame) (n : Nat)
    (h : ∀ f ∈ frames, f.data.length = n) :
    ((frames.map (fun f => f.data)).flatten).length = frames.length * n := by
  induction frames with
  | nil => simp
  | cons f fs ih =>
    simp only [List.map_cons, List.flatten_cons, List.length_append, List.length_cons]
    rw [h f (List.mem_cons_self f fs), ih (fun g hg => h g (List.mem_cons_of_mem f hg))]
    ring

theorem processColorMsg_dims (msg : ImageMsg) (f : Frame)
    (h : processColorMsg msg = Except.ok f) : f.width = msg.width ∧ f.height = msg.height := by
  unfold processColorMsg at h
  split_ifs at h
  cases h
  exact ⟨rfl, rfl⟩

theorem processDepthMsg_dims (lut : Nat → List Nat) (msg : ImageMsg) (f : Frame)
    (h : processDepthMsg lut msg = Except.ok f) : f.width = msg.width ∧ f.height = msg.height := by
  unfold processDepthMsg at h
  split_ifs at h
  cases h
  exact ⟨rfl, rfl⟩

theorem depthLoop_ok_spec (lut : Nat → List Nat) :
    ∀ (msgs : List ImageMsg) (acc frames : List Frame),
      depthLoop lut msgs acc = Except.ok frames →
      (∀ (j : Nat) (x : Frame), acc.get? j = some x → frames.get? j = some x) ∧
      (∀ (i : Nat) (m : ImageMsg), msgs.get? i = some m →
        ∃ f, frames.get? (acc.length + i) = some f ∧ processDepthMsg lut m = Except.ok f)
  | [], acc, frames, hok => by
    simp only [depthLoop, Except.ok.injEq] at hok
    subst hok
    exact ⟨fun j x hj => hj, fun i m hm => by simp at hm⟩
  | m :: rest, acc, frames, hok => by
    cases hpm : processDepthMsg lut m with
    | error e => simp [depthLoop, hpm] at hok
    | ok f =>
      have hok2 : depthLoop lut rest (acc ++ [f]) = Except.ok frames := by
        simpa [depthLoop, hpm] using hok
      have ih := depthLoop_ok_spec lut rest (acc ++ [f]) frames hok2
      constructor
      · intro j x hj
        have hjlt : j < acc.length := by
          rcases List.get?_eq_some.mp hj with ⟨hlt, _⟩
          exact hlt
        exact ih.1 j x (by rw [List.get?_append hjlt]; exact hj)
      · intro i m2 hm
        cases i with
        | zero =>
          have hm2 : m = m2 := by simpa using hm
          subst hm2
          refine ⟨f, ?_, hpm⟩
          have hacc : (acc ++ [f]).get? acc.length = some f := List.get?_concat_length acc f
          simpa using ih.1 acc.length f hacc
        | succ i2 =>
          obtain ⟨g, hg1, hg2⟩ := ih.2 i2 m2 (by simpa using hm)
          refine ⟨g, ?_, hg2⟩
          have harith : (acc ++ [f]).length + i2 = acc.length + (i2 + 1) := by
            simp
            omega
          rwa [harith] at hg1

theorem depthLoop_mem (lut : Nat → List Nat) :
    ∀ (msgs : List ImageMsg) (acc frames : List Frame),
      depthLoop lut msgs acc = Except.ok frames →
      ∀ f ∈ frames, f ∈ acc ∨ ∃ m ∈ msgs, processDepthMsg lut m = Except.ok f
  | [], acc, frames, hok => by
    simp only [depthLoop, Except.ok.injEq] at hok
    subst hok
    exact fun f hf => Or.inl hf
  | m :: rest, acc, frames, hok => by
    cases hpm : processDepthMsg lut m with
    | error e => simp [depthLoop, hpm] at hok
    | ok g =>
      have hok2 : depthLoop lut rest (acc ++ [g]) = Except.ok frames := by
        simpa [depthLoop, hpm] using hok
      intro f hf
      rcases depthLoop_mem lut rest (acc ++ [g]) frames hok2 f hf with hacc | ⟨m2, hm2, hpm2⟩
      · rcases List.mem_append.mp hacc with h1 | h2
        · exact Or.inl h1
        · rcases List.mem_singleton.mp h2 with rfl
          exact Or.inr ⟨m, List.mem_cons_self m rest, hpm⟩
      · exact Or.inr ⟨m2, List.mem_cons_of_mem m hm2, hpm2⟩

theorem colorFold_mem (msgs : List ImageMsg) :
    ∀ (acc : List Frame) (w h : Option Nat) (fs : List Frame) (w2 h2 : Option Nat),
      colorFold msgs acc w h = Except.ok (fs, w2, h2) →
      ∀ f ∈ fs, f ∈ acc ∨ ∃ m ∈ msgs, processColorMsg m = Except.ok f := by
  induction msgs with
  | nil =>
    intro acc w h fs w2 h2 hok f hf
    simp only [colorFold, Except.ok.injEq, Prod.mk.injEq] at hok
    rw [← hok.1] at hf
    exact Or.inl hf
  | cons m rest ih =>
    intro acc w h fs w2 h2 hok f hf
    cases hpm : processColorMsg m with
    | error e => simp [colorFold, hpm] at hok
    | ok g =>
      have hrec : ∃ w3 h3, colorFold rest (acc ++ [g]) w3 h3 = Except.ok (fs, w2, h2) := by
        cases w with
        | none =>
          refine ⟨some g.width, some g.height, ?_⟩
          simpa [colorFold, hpm] using hok
        | some wv =>
          refine ⟨some wv, h, ?_⟩
          simpa [colorFold, hpm] using hok
      obtain ⟨w3, h3, hok2⟩ := hrec
      rcases ih (acc ++ [g]) w3 h3 fs w2 h2 hok2 f hf with hacc | ⟨m2, hm2, hpm2⟩
      · rcases List.mem_append.mp hacc with h1 | h2
        · exact Or.inl h1
        · rcases List.mem_singleton.mp h2 with rfl
          exact Or.inr ⟨m, List.mem_cons_self m rest, hpm⟩
      · exact Or.inr ⟨m2, List.mem_cons_of_mem m hm2, hpm2⟩

/-! ## Claim theorems -/

/-- C4: encoding the empty frame sequence is a no-op — `create_video` never
launches the external process (hence creates no output file), writes and
closes nothing, and returns after reporting that there is nothing to write. -/
theorem create_video_empty_noop (proc : ProcessBehavior) (path : String)
    (fps width height : Nat) (comp : Bool) :
    create_video proc [] path fps width height comp
      = { processLaunched := false, cmd := [], bytesStreamed := [], stdinClosed := false,
          report := VideoReport.nothingToWrite path } := rfl

/-- C9: on a non-empty invocation, a non-zero exit code of the external
process is reported as an encoding error carrying the captured stderr text,
after which `create_video` returns normally (it is a total function of the
process behavior, with exactly one launch — no retry); a zero exit code is
reported as success with the output path. -/
theorem create_video_reports_exit_code (proc : ProcessBehavior) (frames : List Frame)
    (path : String) (fps width height : Nat) (comp : Bool) (hne : frames ≠ []) :
    (create_video proc frames path fps width height comp).processLaunched = true ∧
    (proc.returncode ≠ 0 →
      (create_video proc frames path fps width height comp).report
        = VideoReport.errorCreating proc.stderrText) ∧
    (proc.returncode = 0 →
      (create_video proc frames path fps width height comp).report
        = VideoReport.savedTo path) := by
  have hemp : frames.isEmpty = false := by
    cases frames with
    | nil => cases hne rfl
    | cons f fs => rfl
  refine ⟨?_, fun hrc => ?_, fun hrc => ?_⟩
  · simp [create_video, hemp]
  · simp [create_video, hemp, hrc]
  · simp [create_video, hemp, hrc]

theorem create_video_reports_exit_code_witness :
    (create_video ⟨1, "boom"⟩ [⟨1, 1, [0, 0, 0]⟩] "out.mp4" 30 1 1 false).processLaunched = true ∧
    ((1 : Int) ≠ 0 →
      (create_video ⟨1, "boom"⟩ [⟨1, 1, [0, 0, 0]⟩] "out.mp4" 30 1 1 false).report
        = VideoReport.errorCreating "boom") ∧
    ((1 : Int) = 0 →
      (create_video ⟨1, "boom"⟩ [⟨1, 1, [0, 0, 0]⟩] "out.mp4" 30 1 1 false).report
        = VideoReport.savedTo "out.mp4") :=
  create_video_reports_exit_code ⟨1, "boom"⟩ [⟨1, 1, [0, 0, 0]⟩] "out.mp4" 30 1 1 false
    (by simp)

/-- C10: on a non-empty invocation the argument list always contains the
overwrite flag `-y` (as its second element), for either compression setting,
so an existing file at the output path is silently replaced. -/
theorem create_video_overwrite_flag (proc : ProcessBehavior) (frames : List Frame)
    (path : String) (fps width height : Nat) (comp : Bool) (hne : frames ≠ []) :
    (create_video proc frames path fps width height comp).cmd.get? 1 = some "-y" ∧
    "-y" ∈ (create_video proc frames path fps width height comp).cmd := by
  have hemp : frames.isEmpty = false := by
    cases frames with
    | nil => cases hne rfl
    | cons f fs => rfl
  simp only [create_video, hemp, Bool.false_eq_true, if_false]
  cases comp <;> simp [ffmpegCmd]

theorem create_video_overwrite_flag_witness :
    (create_video ⟨0, ""⟩ [⟨1, 1, [0, 0, 0]⟩] "out.mp4" 30 1 1 false).cmd.get? 1 = some "-y" ∧
    "-y" ∈ (create_video ⟨0, ""⟩ [⟨1, 1, [0, 0, 0]⟩] "out.mp4" 30 1 1 false).cmd :=
  create_video_overwrite_flag ⟨0, ""⟩ [⟨1, 1, [0, 0, 0]⟩] "out.mp4" 30 1 1 false (by simp)

/-- C3: on a non-empty invocation with frames of the declared size,
`create_video` writes to the external process's stdin exactly the
concatenation of every frame's raw bytes in sequence order — that is,
`frame_count * width * height * 3` bytes — and then closes the stream. -/
theorem create_video_streams_exact_bytes (proc : ProcessBehavior) (frames : List Frame)
    (path : String) (fps width height : Nat) (comp : Bool)
    (hne : frames ≠ [])
    (hsize : ∀ f ∈ frames, f.data.length = width * height * 3) :
    (create_video proc frames path fps width height comp).processLaunched = true ∧
    (create_video proc frames path fps width height comp).bytesStreamed
        = (frames.map (fun f => f.data)).flatten ∧
    (create_video proc frames path fps width height comp).bytesStreamed.length
        = frames.length * width * height * 3 ∧
    (create_video proc frames path fps width height comp).stdinClosed = true := by
  have hemp : frames.isEmpty = false := by
    cases frames with
    | nil => cases hne rfl
    | cons f fs => rfl
  refine ⟨?_, ?_, ?_, ?_⟩
  · simp [create_video, hemp]
  · simp [create_video, hemp]
  · simp only [create_video, hemp, Bool.false_eq_true, if_false]
    rw [flatten_map_data_length frames (width * height * 3) hsize]
    ring
  · simp [create_video, hemp]

theorem create_video_streams_exact_bytes_witness :
    (create_video ⟨0, ""⟩ [⟨1, 2, [1, 2, 3, 4, 5, 6]⟩, ⟨1, 2, [9, 9, 9, 9, 9, 9]⟩]
        "out.mp4" 30 2 1 false).processLaunched = true ∧
    (create_video ⟨0, ""⟩ [⟨1, 2, [1, 2, 3, 4, 5, 6]⟩, ⟨1, 2, [9, 9, 9, 9, 9, 9]⟩]
        "out.mp4" 30 2 1 false).bytesStreamed
      = (([⟨1, 2, [1, 2, 3, 4, 5, 6]⟩, ⟨1, 2, [9, 9, 9, 9, 9, 9]⟩] : List Frame).map
          (fun f => f.data)).flatten ∧
    (create_video ⟨0, ""⟩ [⟨1, 2, [1, 2, 3, 4, 5, 6]⟩, ⟨1, 2, [9, 9, 9, 9, 9, 9]⟩]
        "out.mp4" 30 2 1 false).bytesStreamed.length
      = ([⟨1, 2, [1, 2, 3, 4, 5, 6]⟩, ⟨1, 2, [9, 9, 9, 9, 9, 9]⟩] : List Frame).length
          * 2 * 1 * 3 ∧
    (create_video ⟨0, ""⟩ [⟨1, 2, [1, 2, 3, 4, 5, 6]⟩, ⟨1, 2, [9, 9, 9, 9, 9, 9]⟩]
        "out.mp4" 30 2 1 false).stdinClosed = true :=
  create_video_streams_exact_bytes ⟨0, ""⟩
    [⟨1, 2, [1, 2, 3, 4, 5, 6]⟩, ⟨1, 2, [9, 9, 9, 9, 9, 9]⟩] "out.mp4" 30 2 1 false
    (by decide) (by decide)

/-- C6: on a non-empty invocation with the compression flag off, the selected
profile carries the lossless quality parameter (`-crf 0`) and the argument
list contains no bitrate argument (no `-b:v <BITRATE>` pair anywhere); with
the flag on, the list contains `-b:v` immediately followed by the configured
bitrate string `BITRATE = "24000k"`. -/
theorem create_video_compression_profile (proc : ProcessBehavior) (frames : List Frame)
    (path : String) (fps width height : Nat) (hne : frames ≠ []) :
    ((create_video proc frames path fps width height false).cmd.get? 14 = some "-crf" ∧
     (create_video proc frames path fps width height false).cmd.get? 15 = some "0" ∧
     ¬ ∃ i, (create_video proc frames path fps width height false).cmd.get? i = some "-b:v" ∧
        (create_video proc frames path fps width height false).cmd.get? (i + 1)
          = some BITRATE) ∧
    ((create_video proc frames path fps width height true).cmd.get? 18 = some "-b:v" ∧
     (create_video proc frames path fps width height true).cmd.get? 19 = some BITRATE) := by
  have hemp : frames.isEmpty = false := by
    cases frames with
    | nil => cases hne rfl
    | cons f fs => rfl
  refine ⟨⟨?_, ?_, ?_⟩, ?_, ?_⟩
  · simp [create_video, hemp, ffmpegCmd]
  · simp [create_video, hemp, ffmpegCmd]
  · rintro ⟨i, h1, h2⟩
    simp only [create_video, hemp, Bool.false_eq_true, if_false] at h1 h2
    have hi : i < 19 := by
      rcases List.get?_eq_some.mp h1 with ⟨hlt, _⟩
      have hlen : (ffmpegCmd fps width height false path).length = 19 := by
        simp [ffmpegCmd]
      omega
    interval_cases i <;> simp [ffmpegCmd, BITRATE] at h1 h2
  · simp [create_video, hemp, ffmpegCmd]
  · simp [create_video, hemp, ffmpegCmd, BITRATE]

theorem create_video_compression_profile_witness :
    ((create_video ⟨0, ""⟩ [⟨1, 1, [0, 0, 0]⟩] "out.mp4" 30 1 1 false).cmd.get? 14
        = some "-crf" ∧
     (create_video ⟨0, ""⟩ [⟨1, 1, [0, 0, 0]⟩] "out.mp4" 30 1 1 false).cmd.get? 15
        = some "0" ∧
     ¬ ∃ i, (create_video ⟨0, ""⟩ [⟨1, 1, [0, 0, 0]⟩] "out.mp4" 30 1 1 false).cmd.get? i
          = some "-b:v" ∧
        (create_video ⟨0, ""⟩ [⟨1, 1, [0, 0, 0]⟩] "out.mp4" 30 1 1 false).cmd.get? (i + 1)
          = some BITRATE) ∧
    ((create_video ⟨0, ""⟩ [⟨1, 1, [0, 0, 0]⟩] "out.mp4" 30 1 1 true).cmd.get? 18
        = some "-b:v" ∧
     (create_video ⟨0, ""⟩ [⟨1, 1, [0, 0, 0]⟩] "out.mp4" 30 1 1 true).cmd.get? 19
        = some BITRATE) :=
  create_video_compression_profile ⟨0, ""⟩ [⟨1, 1, [0, 0, 0]⟩] "out.mp4" 30 1 1 (by decide)

theorem processColorMsg_error_iff (msg : ImageMsg) :
    (∃ e, processColorMsg msg = Except.error e)
      ↔ msg.data.length ≠ msg.height * msg.width * 3 := by
  unfold processColorMsg
  split_ifs with h
  · exact iff_of_false (by simp) (by omega)
  · exact iff_of_true ⟨_, rfl⟩ h

theorem processColorMsg_ok_iff (msg : ImageMsg) :
    (∃ f, processColorMsg msg = Except.ok f)
      ↔ msg.data.length = msg.height * msg.width * 3 := by
  unfold processColorMsg
  split_ifs with h
  · exact iff_of_true ⟨_, rfl⟩ h
  · exact iff_of_false (by simp) h

theorem processDepthMsg_error_iff (lut : Nat → List Nat) (msg : ImageMsg) :
    (∃ e, processDepthMsg lut msg = Except.error e)
      ↔ msg.data.length ≠ msg.height * msg.width * 2 := by
  have hlen : (depthSamples msg).length = msg.data.length / 2 :=
    depthSamplesOfBytes_length msg.data
  unfold processDepthMsg
  split_ifs with h1 h2
  · exact iff_of_true ⟨_, rfl⟩ (by omega)
  · exact iff_of_false (by simp) (by omega)
  · exact iff_of_true ⟨_, rfl⟩ (by omega)

theorem processDepthMsg_ok_iff (lut : Nat → List Nat) (msg : ImageMsg) :
    (∃ f, processDepthMsg lut msg = Except.ok f)
      ↔ msg.data.length = msg.height * msg.width * 2 := by
  have hlen : (depthSamples msg).length = msg.data.length / 2 :=
    depthSamplesOfBytes_length msg.data
  unfold processDepthMsg
  split_ifs with h1 h2
  · exact iff_of_false (by simp) (by omega)
  · exact iff_of_true ⟨_, rfl⟩ (by omega)
  · exact iff_of_false (by simp) (by omega)

/-- C8: a color message fails with the malformed-frame (reshape) error
exactly when its buffer length differs from `height * width * 3`, and a depth
message exactly when its buffer length differs from `height * width * 2` (an
odd buffer is rejected by the 16-bit view, a wrong sample count by the
reshape); a message whose buffer length matches always yields a frame. -/
theorem extractor_malformed_frame_iff (lut : Nat → List Nat) (msg : ImageMsg) :
    ((∃ e, processColorMsg msg = Except.error e)
        ↔ msg.data.length ≠ msg.height * msg.width * 3) ∧
    ((∃ f, processColorMsg msg = Except.ok f)
        ↔ msg.data.length = msg.height * msg.width * 3) ∧
    ((∃ e, processDepthMsg lut msg = Except.error e)
        ↔ msg.data.length ≠ msg.height * msg.width * 2) ∧
    ((∃ f, processDepthMsg lut msg = Except.ok f)
        ↔ msg.data.length = msg.height * msg.width * 2) := by
  exact ⟨processColorMsg_error_iff msg, processColorMsg_ok_iff msg,
    processDepthMsg_error_iff lut msg, processDepthMsg_ok_iff lut msg⟩

/-- C5: if the recording's color channel has zero messages the driver makes
no `create_video` call at all — so no external process is invoked and neither
output file is created — and the run does not complete normally: it aborts
with the "Could not determine frame size" report (or an extraction error
raised by a malformed depth message before the encoding stage). -/
theorem main_aborts_on_empty_color_channel (lut : Nat → List Nat)
    (procColor procDepth : ProcessBehavior) (rec : Recording) (comp : Bool)
    (hc : rec.colorMsgs = []) :
    (main_run lut procColor procDepth rec comp).videoCalls = [] ∧
    (main_run lut procColor procDepth rec comp).outcome ≠ MainOutcome.completed := by
  unfold main_run
  rw [hc]
  have hcf : extract_color_frames [] = Except.ok ⟨[], 30, none, none⟩ := rfl
  rw [hcf]
  cases hdf : extract_depth_frames lut rec.depthMsgs with
  | error e => exact ⟨rfl, by simp⟩
  | ok dfs => exact ⟨rfl, by simp⟩

theorem main_aborts_on_empty_color_channel_witness :
    (main_run (fun v => [v, v, v]) ⟨0, ""⟩ ⟨0, ""⟩ ⟨[], [⟨1, 1, [7, 0]⟩], ["imu0"]⟩
        false).videoCalls = [] ∧
    (main_run (fun v => [v, v, v]) ⟨0, ""⟩ ⟨0, ""⟩ ⟨[], [⟨1, 1, [7, 0]⟩], ["imu0"]⟩
        false).outcome ≠ MainOutcome.completed :=
  main_aborts_on_empty_color_channel (fun v => [v, v, v]) ⟨0, ""⟩ ⟨0, ""⟩
    ⟨[], [⟨1, 1, [7, 0]⟩], ["imu0"]⟩ false rfl

theorem processColorMsg_byteAt (msg : ImageMsg) (f : Frame)
    (hok : processColorMsg msg = Except.ok f)
    (r c ch : Nat) (hr : r < msg.height) (hc : c < msg.width) (hch : ch < 3) :
    f.byteAt r c ch = msg.byteAt r c (2 - ch) := by
  unfold processColorMsg at hok
  split_ifs at hok with hlen
  cases hok
  simp only [Frame.byteAt, ImageMsg.byteAt]
  have hmul : r * msg.width + msg.width ≤ msg.height * msg.width := by
    have h2 : (r + 1) * msg.width ≤ msg.height * msg.width :=
      Nat.mul_le_mul_right _ hr
    rw [Nat.succ_mul] at h2
    exact h2
  have hidx : (r * msg.width + c) * 3 + ch < msg.data.length := by
    rw [hlen]
    omega
  rw [rgb2bgr_getD msg.data _ hidx]
  have hdiv : ((r * msg.width + c) * 3 + ch) / 3 = r * msg.width + c := by omega
  have hmod : ((r * msg.width + c) * 3 + ch) % 3 = ch := by omega
  rw [hdiv, hmod, Nat.mul_comm 3 (r * msg.width + c)]

/-- C1: the frame a valid color message yields equals the source pixel array
with color channels 0 and 2 swapped at every (row, col) position, channel 1
unchanged — the RGB→BGR conversion of `extract_color_frames`. -/
theorem extract_color_channel_swap (msg : ImageMsg) (f : Frame)
    (hok : processColorMsg msg = Except.ok f)
    (r c : Nat) (hr : r < msg.height) (hc : c < msg.width) :
    f.byteAt r c 0 = msg.byteAt r c 2 ∧
    f.byteAt r c 1 = msg.byteAt r c 1 ∧
    f.byteAt r c 2 = msg.byteAt r c 0 :=
  ⟨processColorMsg_byteAt msg f hok r c 0 hr hc (by omega),
   processColorMsg_byteAt msg f hok r c 1 hr hc (by omega),
   processColorMsg_byteAt msg f hok r c 2 hr hc (by omega)⟩

theorem extract_color_channel_swap_witness :
    Frame.byteAt ⟨1, 1, [30, 20, 10]⟩ 0 0 0 = ImageMsg.byteAt ⟨1, 1, [10, 20, 30]⟩ 0 0 2 ∧
    Frame.byteAt ⟨1, 1, [30, 20, 10]⟩ 0 0 1 = ImageMsg.byteAt ⟨1, 1, [10, 20, 30]⟩ 0 0 1 ∧
    Frame.byteAt ⟨1, 1, [30, 20, 10]⟩ 0 0 2 = ImageMsg.byteAt ⟨1, 1, [10, 20, 30]⟩ 0 0 0 :=
  extract_color_channel_swap ⟨1, 1, [10, 20, 30]⟩ ⟨1, 1, [30, 20, 10]⟩ rfl 0 0
    (by decide) (by decide)

/-- C2: for a depth message in an extracted sequence, the frame at its
position is a function of that single message alone, and — whenever the
message's 16-bit samples are not all equal — the normalized 8-bit frame
computed before the color lookup maps every position holding the frame's own
minimum sample to 0 and every position holding its maximum sample to 255. -/
theorem extract_depth_frames_normalization (lut : Nat → List Nat)
    (msgs : List ImageMsg) (frames : List Frame) (i : Nat) (m : ImageMsg)
    (hex : extract_depth_frames lut msgs = Except.ok frames)
    (hm : msgs.get? i = some m)
    (hnd : listMin (depthSamples m) ≠ listMax (depthSamples m)) :
    (∃ f, frames.get? i = some f ∧ processDepthMsg lut m = Except.ok f) ∧
    (∀ (k : Nat) (hk : k < (depthSamples m).length),
      ((depthSamples m).get ⟨k, hk⟩ = listMin (depthSamples m) →
        (depth_normalized m).getD k 0 = 0) ∧
      ((depthSamples m).get ⟨k, hk⟩ = listMax (depthSamples m) →
        (depth_normalized m).getD k 0 = 255)) := by
  constructor
  · have hspec := depthLoop_ok_spec lut msgs [] frames hex
    simpa using hspec.2 i m hm
  · intro k hk
    have hmem : (depthSamples m).get ⟨k, hk⟩ ∈ depthSamples m :=
      List.get_mem (depthSamples m) k hk
    constructor
    · intro hmin
      unfold depth_normalized
      rw [normMinMax_getD (depthSamples m) k hk (Ne.symm hnd), hmin, Nat.sub_self,
        Nat.zero_mul]
      exact roundDiv_zero _
    · intro hmax
      have hlohi : listMin (depthSamples m) < listMax (depthSamples m) := by
        have h1 := listMin_le_of_mem (depthSamples m) _ hmem
        rw [hmax] at h1
        omega
      unfold depth_normalized
      rw [normMinMax_getD (depthSamples m) k hk (Ne.symm hnd), hmax]
      exact roundDiv_mul_self (listMax (depthSamples m) - listMin (depthSamples m)) 255
        (by omega)

theorem extract_depth_frames_normalization_witness :
    (∃ f, ([⟨1, 2, [0, 0, 0, 255, 255, 255]⟩] : List Frame).get? 0 = some f ∧
      processDepthMsg (fun v => [v, v, v]) ⟨1, 2, [0, 0, 232, 3]⟩ = Except.ok f) ∧
    (∀ (k : Nat) (hk : k < (depthSamples ⟨1, 2, [0, 0, 232, 3]⟩).length),
      ((depthSamples ⟨1, 2, [0, 0, 232, 3]⟩).get ⟨k, hk⟩
          = listMin (depthSamples ⟨1, 2, [0, 0, 232, 3]⟩) →
        (depth_normalized ⟨1, 2, [0, 0, 232, 3]⟩).getD k 0 = 0) ∧
      ((depthSamples ⟨1, 2, [0, 0, 232, 3]⟩).get ⟨k, hk⟩
          = listMax (depthSamples ⟨1, 2, [0, 0, 232, 3]⟩) →
        (depth_normalized ⟨1, 2, [0, 0, 232, 3]⟩).getD k 0 = 255)) :=
  extract_depth_frames_normalization (fun v => [v, v, v]) [⟨1, 2, [0, 0, 232, 3]⟩]
    [⟨1, 2, [0, 0, 0, 255, 255, 255]⟩] 0 ⟨1, 2, [0, 0, 232, 3]⟩ rfl rfl (by decide)

/-- C7 counterexample: the claim that every extracted frame has the width and
height of the first frame observed on the channel is false — the extractor
performs no uniformity check, so a recording whose color messages declare
different sizes (here 1×1 then 2×1) yields a sequence with mismatched frames. -/
theorem extractor_uniform_dims_counterexample :
    ¬ (∀ (msgs : List ImageMsg) (ce : ColorExtract),
        extract_color_frames msgs = Except.ok ce →
        ∀ f ∈ ce.frames, some f.width = ce.frameWidth ∧ some f.height = ce.frameHeight) := by
  intro hclaim
  have h := hclaim [⟨1, 1, [1, 2, 3]⟩, ⟨1, 2, [1, 2, 3, 4, 5, 6]⟩]
    ⟨[⟨1, 1, [3, 2, 1]⟩, ⟨1, 2, [3, 2, 1, 6, 5, 4]⟩], 30, some 1, some 1⟩ rfl
    ⟨1, 2, [3, 2, 1, 6, 5, 4]⟩ (by simp)
  exact absurd h.1 (by decide)

/-- C7 amended: if every message on the channel declares the same width and
height, then every frame either extractor produces has exactly those
dimensions (so all frames match the first frame observed). -/
theorem extractor_uniform_dims_amended (lut : Nat → List Nat) (msgs : List ImageMsg)
    (w h : Nat) (hm : ∀ m ∈ msgs, m.width = w ∧ m.height = h) :
    (∀ ce, extract_color_frames msgs = Except.ok ce →
      ∀ f ∈ ce.frames, f.width = w ∧ f.height = h) ∧
    (∀ fs, extract_depth_frames lut msgs = Except.ok fs →
      ∀ f ∈ fs, f.width = w ∧ f.height = h) := by
  constructor
  · intro ce hce f hf
    unfold extract_color_frames at hce
    cases hcf : colorFold msgs [] none none with
    | error e => rw [hcf] at hce; cases hce
    | ok t =>
      rw [hcf] at hce
      obtain ⟨fs, w2, h2⟩ := t
      cases hce
      rcases colorFold_mem msgs [] none none fs w2 h2 hcf f hf with hacc | ⟨m2, hm2, hok⟩
      · exact absurd hacc (List.not_mem_nil f)
      · obtain ⟨hw, hh⟩ := processColorMsg_dims m2 f hok
        obtain ⟨hw2, hh2⟩ := hm m2 hm2
        exact ⟨hw.trans hw2, hh.trans hh2⟩
  · intro fs hfs f hf
    rcases depthLoop_mem lut msgs [] fs hfs f hf with hacc | ⟨m2, hm2, hok⟩
    · exact absurd hacc (List.not_mem_nil f)
    · obtain ⟨hw, hh⟩ := processDepthMsg_dims lut m2 f hok
      obtain ⟨hw2, hh2⟩ := hm m2 hm2
      exact ⟨hw.trans hw2, hh.trans hh2⟩

theorem extractor_uniform_dims_amended_witness :
    (∀ ce, extract_color_frames [⟨2, 1, [5, 6, 7, 8, 9, 10]⟩] = Except.ok ce →
      ∀ f ∈ ce.frames, f.width = 1 ∧ f.height = 2) ∧
    (∀ fs, extract_depth_frames (fun v => [v, v, v]) [⟨2, 1, [5, 6, 7, 8, 9, 10]⟩]
        = Except.ok fs →
      ∀ f ∈ fs, f.width = 1 ∧ f.height = 2) :=
  extractor_uniform_dims_amended (fun v => [v, v, v]) [⟨2, 1, [5, 6, 7, 8, 9, 10]⟩] 1 2
    (by decide)

end Db3ToVideo
